import Mathlib

/-!
Verification of the ishell command-tree dispatcher and argument parser
(`command.go`).  Go strings are modelled as lists of characters, the Go
`int`-valued `ArgType` as `Int`, fallible construction as `Except`, and the
mutable scan state of `ParseArgs` as an explicit state record threaded
through a recursive scan function.  Every definition below is a direct
translation of the corresponding Go function; definitions whose names do not
occur in the source are reference formulations taken from the prose
specification and are marked as such.
-/

namespace Ishell

/-- Go strings, modelled as lists of characters. -/
abbrev GoStr := List Char

/-- Go `ArgType` is an `int` with named constants 0, 1, 2. -/
abbrev ArgType := Int

/-- `IntType ArgType = 0` -/
def IntType : ArgType := 0

/-- `StringType ArgType = 1` -/
def StringType : ArgType := 1

/-- `BoolType ArgType = 2` -/
def BoolType : ArgType := 2

/-- The `CmdArg` declaration record from `command.go`. -/
structure CmdArg where
  flag : GoStr
  longFlag : GoStr
  typ : ArgType
  positional : Bool
  canHaveMultiple : Bool
  required : Bool
  deriving DecidableEq

instance : Inhabited CmdArg := ⟨⟨[], [], 0, false, false, false⟩⟩

/-- The `ParsedArg` result record from `command.go`.  The Go zero value has
`Index 0`, empty `Key`, `Typ 0` and empty `Value`. -/
structure ParsedArg where
  Index : Nat
  Key : GoStr
  Typ : ArgType
  Value : GoStr
  deriving DecidableEq

instance : Inhabited ParsedArg := ⟨⟨0, [], 0, []⟩⟩

/-- The errors produced by `ParseArgs`/`validate_args`, one constructor per
`fmt.Errorf` site, carrying the data interpolated into the message. -/
inductive ParseError where
  | invalidInteger (token : GoStr) (index : Nat)
  | unrecognized (token : GoStr)
  | missingValue
  | requiresValue (key : GoStr)
  | missingRequired (key : GoStr)
  | duplicate (key : GoStr)
  deriving DecidableEq

/-- The errors produced by `NewCmdArg`, one constructor per `fmt.Errorf`
site. -/
inductive DeclError where
  | invalidFlag (flag : GoStr)
  | emptyLongFlag
  | invalidPositionalKey (longFlag : GoStr)
  | positionalBoolean
  | invalidLongFlag (longFlag : GoStr)
  | invalidType (typ : Int)
  deriving DecidableEq

/-- A command node: name, aliases, argument declarations (in declaration
order) and subcommands.  The Go `children` map is keyed by name; it is
modelled as a list whose member names are pairwise distinct whenever a claim
needs the map structure. -/
inductive Cmd : Type where
  | mk : GoStr → List GoStr → List CmdArg → List Cmd → Cmd

/-- The `Name` field of a command. -/
def Cmd.name : Cmd → GoStr
  | .mk n _ _ _ => n

/-- The `Aliases` field of a command. -/
def Cmd.aliases : Cmd → List GoStr
  | .mk _ a _ _ => a

/-- The `arglist` field of a command. -/
def Cmd.arglist : Cmd → List CmdArg
  | .mk _ _ l _ => l

/-- The `children` map of a command, as a list of subcommands. -/
def Cmd.children : Cmd → List Cmd
  | .mk _ _ _ c => c

/-- `is_long_arg` from `command.go`: length above two and the first two
characters are dashes. -/
def is_long_arg (s : GoStr) : Bool :=
  decide (2 < s.length) && decide (s.take 2 = ['-', '-'])

/-- `is_short_arg` from `command.go`: length above one and the first
character is a dash (the source comments that the second character is not
checked, so every long token is also short in this sense). -/
def is_short_arg (s : GoStr) : Bool :=
  decide (1 < s.length) && decide (s.take 1 = ['-'])

/-- ASCII alphanumeric, the character class `[a-zA-Z0-9]` of the Go
regexes. -/
def isAlnum (c : Char) : Bool := c.isAlpha || c.isDigit

/-- The character class `[a-zA-Z0-9_-]` of the Go regexes. -/
def isKeyChar (c : Char) : Bool := isAlnum c || decide (c = '_') || decide (c = '-')

/-- Full match of the Go regex `^-[a-zA-Z0-9]$`. -/
def matchShortFlag : GoStr → Bool
  | ['-', c] => isAlnum c
  | _ => false

/-- Full match of the Go regex `^[a-zA-Z0-9][a-zA-Z0-9_-]+$`. -/
def matchPosKey : GoStr → Bool
  | [] => false
  | c :: rest => isAlnum c && decide (rest ≠ []) && rest.all isKeyChar

/-- Full match of the Go regex `^--[a-zA-Z0-9][a-zA-Z0-9_-]+$`. -/
def matchLongKey : GoStr → Bool
  | '-' :: '-' :: c :: rest => isAlnum c && decide (rest ≠ []) && rest.all isKeyChar
  | _ => false

/-- `NewCmdArg` from `command.go`: validates the declaration and on success
builds the `CmdArg` with the derived `positional` classification. -/
def NewCmdArg (flag : GoStr) (longFlag : GoStr) (typ : ArgType)
    (canHaveMultiple : Bool) (required : Bool) : Except DeclError CmdArg :=
  if flag ≠ [] ∧ ¬(flag.length = 2 ∧ matchShortFlag flag = true) then
    .error (.invalidFlag flag)
  else if longFlag = [] then
    .error .emptyLongFlag
  else
    let positional := !is_long_arg longFlag && decide (flag = [])
    if positional = true ∧ matchPosKey longFlag = false then
      .error (.invalidPositionalKey longFlag)
    else if positional = true ∧ typ = BoolType then
      .error .positionalBoolean
    else if positional = false ∧ ¬(3 < longFlag.length ∧ matchLongKey longFlag = true) then
      .error (.invalidLongFlag longFlag)
    else if typ < 0 ∨ 2 < typ then
      .error (.invalidType typ)
    else
      .ok ⟨flag, longFlag, typ, positional, canHaveMultiple, required⟩

/-- `hasSubcommand` from `command.go`. -/
def Cmd.hasSubcommand (c : Cmd) : Bool :=
  if 1 < c.children.length then true
  else if (c.children.any (fun ch => decide (ch.name = "help".toList))) = false then
    decide (0 < c.children.length)
  else false

/-- `findChildCmd` from `command.go`: exact name lookup in the children map
first, then a scan over children for a matching alias. -/
def Cmd.findChildCmd (c : Cmd) (name : GoStr) : Option Cmd :=
  match c.children.find? (fun ch => decide (ch.name = name)) with
  | some cmd => some cmd
  | none => c.children.find? (fun ch => decide (name ∈ ch.aliases))

/-- The loop of `FindCmd`: walk tokens downward, remembering the deepest
match so far (`cmd`, initially the Go nil pointer, modelled as `none`). -/
def FindCmd_go : Cmd → Option Cmd → List GoStr → Option Cmd × List GoStr
  | _, cmd, [] => (cmd, [])
  | c, cmd, arg :: rest =>
    match c.findChildCmd arg with
    | some cmd1 => FindCmd_go cmd1 (some cmd1) rest
    | none => (cmd, arg :: rest)

/-- `FindCmd` from `command.go`. -/
def Cmd.FindCmd (c : Cmd) (args : List GoStr) : Option Cmd × List GoStr :=
  FindCmd_go c none args

/-- The loop of `find_arg`, first match wins; `i` is the current index. -/
def find_arg_go (arglist : List CmdArg) (i : Nat) (is_long : Bool) (arg : GoStr) : Int :=
  match arglist with
  | [] => -1
  | a :: rest =>
    if is_long = true ∧ a.longFlag = arg then (i : Int)
    else if a.flag = arg then (i : Int)
    else find_arg_go rest (i + 1) is_long arg

/-- `find_arg` from `command.go`: the guard `!(is_long != is_short_arg(arg))`
returns `-1` whenever the two classifications agree. -/
def Cmd.find_arg (c : Cmd) (arg : GoStr) : Int :=
  let is_long := is_long_arg arg
  if is_long = is_short_arg arg then -1
  else find_arg_go c.arglist 0 is_long arg

/-- The loop of `find_positional`; `i` is the current declaration index. -/
def find_positional_go (arglist : List CmdArg) (i : Nat) (arg_mask : List Nat) : Int :=
  match arglist with
  | [] => -1
  | a :: rest =>
    if a.positional = true then
      if arg_mask.getD i 0 = 0 then (i : Int)
      else if a.canHaveMultiple = true then (i : Int)
      else find_positional_go rest (i + 1) arg_mask
    else find_positional_go rest (i + 1) arg_mask

/-- `find_positional` from `command.go`. -/
def Cmd.find_positional (c : Cmd) (arg_mask : List Nat) : Int :=
  find_positional_go c.arglist 0 arg_mask

/-- The per-token rewrite of `initial_pass`: a combinable cluster becomes one
two-character token per remaining character, other tokens pass through. -/
def expand_token (arg : GoStr) : List GoStr :=
  if is_short_arg arg = true ∧ is_long_arg arg = false ∧ 2 < arg.length then
    (arg.drop 1).map (fun ch => ['-', ch])
  else [arg]

/-- `initial_pass` from `command.go`. -/
def initial_pass (args : List GoStr) : List GoStr :=
  args.flatMap expand_token

/-- `validate_int` from `command.go`: `strconv.Atoi` succeeds on an optional
sign followed by at least one decimal digit (the platform range check is not
modelled; no claim depends on it). -/
def validate_int (s : GoStr) : Bool :=
  match s with
  | [] => false
  | c :: rest =>
    let digits := if c = '+' ∨ c = '-' then rest else c :: rest
    decide (digits ≠ []) && digits.all Char.isDigit

/-- The first loop of `validate_args`: the defensive value check over the
emitted occurrences. -/
def check_values (parsed : List ParsedArg) : Option ParseError :=
  match parsed with
  | [] => none
  | a :: rest =>
    if a.Typ ≠ BoolType ∧ a.Value = [] then some (.requiresValue a.Key)
    else check_values rest

/-- The second loop of `validate_args`: required and multiplicity checks per
declaration, in declaration order, required checked first. -/
def check_decls (arglist : List CmdArg) (i : Nat) (arg_mask : List Nat) : Option ParseError :=
  match arglist with
  | [] => none
  | a :: rest =>
    if a.required = true ∧ ¬(0 < arg_mask.getD i 0) then some (.missingRequired a.longFlag)
    else if a.canHaveMultiple = false ∧ 1 < arg_mask.getD i 0 then some (.duplicate a.longFlag)
    else check_decls rest (i + 1) arg_mask

/-- `validate_args` from `command.go`. -/
def Cmd.validate_args (c : Cmd) (arg_mask : List Nat) (parsed : List ParsedArg) :
    Option ParseError :=
  match check_values parsed with
  | some e => some e
  | none => check_decls c.arglist 0 arg_mask

/-- The local mutable state of one `ParseArgs` call. -/
structure ScanSt where
  ret : List ParsedArg
  arg_mask : List Nat
  temp_arg : ParsedArg
  awaiting_value : Bool
  deriving DecidableEq

/-- `arg_mask[i] += 1` (in-range in every reachable call). -/
def bumpAt (mask : List Nat) (i : Nat) : List Nat :=
  mask.set i (mask.getD i 0 + 1)

/-- The consumption loop of `ParseArgs`, translated branch for branch from
`command.go`: flag match first (booleans emitted immediately, others staged
in `temp_arg`), then the awaiting-value branch, then positional fill, each
error site returning the partial result list with its error. -/
def parse_go (c : Cmd) : List GoStr → ScanSt → ScanSt ⊕ (List ParsedArg × ParseError)
  | [], st => .inl st
  | arg :: rest, st =>
    let index := c.find_arg arg
    if index ≠ -1 then
      let i := index.toNat
      let a := c.arglist.getD i default
      let temp : ParsedArg := ⟨i, a.longFlag, a.typ, []⟩
      if a.typ ≠ BoolType then
        parse_go c rest { st with temp_arg := temp, awaiting_value := true }
      else
        parse_go c rest { st with
          temp_arg := temp
          ret := st.ret ++ [temp]
          arg_mask := bumpAt st.arg_mask i }
    else if st.awaiting_value = true then
      if st.temp_arg.Typ = IntType ∧ validate_int arg = false then
        .inr (st.ret, .invalidInteger arg st.temp_arg.Index)
      else
        let temp := { st.temp_arg with Value := arg }
        parse_go c rest { st with
          temp_arg := temp
          ret := st.ret ++ [temp]
          arg_mask := bumpAt st.arg_mask temp.Index
          awaiting_value := false }
    else
      let index2 := c.find_positional st.arg_mask
      if index2 ≠ -1 then
        let i := index2.toNat
        let a := c.arglist.getD i default
        let temp : ParsedArg := ⟨i, a.longFlag, a.typ, arg⟩
        let mask2 := bumpAt st.arg_mask i
        if temp.Typ = IntType ∧ validate_int arg = false then
          .inr (st.ret, .invalidInteger arg i)
        else
          parse_go c rest { ret := st.ret ++ [temp]
                            arg_mask := mask2
                            temp_arg := temp
                            awaiting_value := st.awaiting_value }
      else
        .inr (st.ret, .unrecognized arg)

/-- The initial scan state of `ParseArgs`: empty result, all-zero mask,
zero-valued `temp_arg`, not awaiting. -/
def initSt (c : Cmd) : ScanSt :=
  ⟨[], List.replicate c.arglist.length 0, default, false⟩

/-- `ParseArgs` from `command.go`: expansion pass, consumption loop,
trailing-value check, then `validate_args`. -/
def Cmd.ParseArgs (c : Cmd) (args : List GoStr) : List ParsedArg × Option ParseError :=
  match parse_go c (initial_pass args) (initSt c) with
  | .inr (ret, e) => (ret, some e)
  | .inl st =>
    if st.awaiting_value = true then (st.ret, some .missingValue)
    else (st.ret, c.validate_args st.arg_mask st.ret)

/-! ## Reference formulations taken from the specification text -/

/-- From the spec: a token is a combinable short-flag cluster iff it starts
with exactly one dash (not two) and has length above two. -/
def isCluster (t : GoStr) : Bool :=
  decide (t.take 1 = ['-']) && decide (t.take 2 ≠ ['-', '-']) && decide (2 < t.length)

/-- From the spec: every combinable cluster is replaced in place by one
single-character flag token per remaining character, in order; all other
tokens are unchanged. -/
def expandClusters (args : List GoStr) : List GoStr :=
  args.flatMap (fun t =>
    if isCluster t = true then (t.drop 1).map (fun ch => ['-', ch]) else [t])

/-- Eligibility of one declaration for a positional candidate, as the code
behaves: positional, and either its mask slot is zero or it accepts
multiple occurrences. -/
def posEligArg (a : CmdArg) (arg_mask : List Nat) (j : Nat) : Bool :=
  a.positional && (decide (arg_mask.getD j 0 = 0) || a.canHaveMultiple)

/-- `posEligArg` read off a command's declaration list at index `j`. -/
def posElig (c : Cmd) (arg_mask : List Nat) (j : Nat) : Bool :=
  match c.arglist.get? j with
  | some a => posEligArg a arg_mask j
  | none => false

/-- First index at or after `k` holding an eligible positional declaration. -/
def first_eligible_go (arglist : List CmdArg) (k : Nat) (arg_mask : List Nat) : Option Nat :=
  match arglist with
  | [] => none
  | a :: rest =>
    if posEligArg a arg_mask k = true then some k
    else first_eligible_go rest (k + 1) arg_mask

/-- From the claim: first positional declaration whose mask slot is zero. -/
def firstZeroPos_go (arglist : List CmdArg) (k : Nat) (arg_mask : List Nat) : Option Nat :=
  match arglist with
  | [] => none
  | a :: rest =>
    if a.positional = true ∧ arg_mask.getD k 0 = 0 then some k
    else firstZeroPos_go rest (k + 1) arg_mask

/-- From the claim: first positional declaration with `canHaveMultiple`. -/
def firstMultiPos_go (arglist : List CmdArg) (k : Nat) : Option Nat :=
  match arglist with
  | [] => none
  | a :: rest =>
    if a.positional = true ∧ a.canHaveMultiple = true then some k
    else firstMultiPos_go rest (k + 1)

/-- The positional-selection rule exactly as claim C2 states it: the first
positional with a zero mask slot, or — only if none has a zero slot — the
first positional with `canHaveMultiple`, else `-1`. -/
def claimed_find_positional (c : Cmd) (arg_mask : List Nat) : Int :=
  match firstZeroPos_go c.arglist 0 arg_mask with
  | some i => (i : Int)
  | none =>
    match firstMultiPos_go c.arglist 0 with
    | some i => (i : Int)
    | none => -1

/-- Violation of a post-validation rule by one declaration: required with a
zero count, or non-multiple with a count above one. -/
def violArg (a : CmdArg) (arg_mask : List Nat) (i : Nat) : Bool :=
  (a.required && decide (arg_mask.getD i 0 = 0)) ||
    (!a.canHaveMultiple && decide (1 < arg_mask.getD i 0))

/-- `violArg` read off a command's declaration list at index `i`. -/
def declViol (c : Cmd) (arg_mask : List Nat) (i : Nat) : Bool :=
  match c.arglist.get? i with
  | some a => violArg a arg_mask i
  | none => false

/-- From the spec: the derived positional classification,
`!isLongFlagShape(longFlag) && shortFlag == ""`. -/
def derivedPositional (flag : GoStr) (longFlag : GoStr) : Bool :=
  !is_long_arg longFlag && decide (flag = [])

/-- The declaration rules of claim C7, as a disjunction: `NewCmdArg` must
fail exactly when one of these holds. -/
def declViolated (flag : GoStr) (longFlag : GoStr) (typ : ArgType) : Prop :=
  (flag ≠ [] ∧ ¬(flag.length = 2 ∧ matchShortFlag flag = true)) ∨
  longFlag = [] ∨
  (derivedPositional flag longFlag = true ∧ matchPosKey longFlag = false) ∨
  (derivedPositional flag longFlag = true ∧ typ = BoolType) ∨
  (derivedPositional flag longFlag = false ∧
    ¬(3 < longFlag.length ∧ matchLongKey longFlag = true)) ∨
  (typ < 0 ∨ 2 < typ)

instance (flag longFlag : GoStr) (typ : ArgType) : Decidable (declViolated flag longFlag typ) := by
  unfold declViolated
  infer_instance

/-- A declaration that `NewCmdArg` itself would construct: the claim
hypotheses "declarations all come from successful NewArgument" are stated
through this check. -/
def validArg (a : CmdArg) : Bool :=
  match NewCmdArg a.flag a.longFlag a.typ a.canHaveMultiple a.required with
  | .ok b => decide (b = a)
  | .error _ => false

/-- A Boolean occurrence, or a non-empty value: the property the defensive
check of `validate_args` enforces. -/
def goodValue (pa : ParsedArg) : Bool :=
  decide (pa.Typ = BoolType) || decide (pa.Value ≠ [])

/-- Recognizer for the defensive-check error of `validate_args`. -/
def ParseError.isRequiresValue : ParseError → Bool
  | .requiresValue _ => true
  | _ => false

/-- `true` when an optional error is absent or not the defensive-check
error. -/
def noRequiresValue : Option ParseError → Bool
  | some e => !e.isRequiresValue
  | none => true

/-! ## Concrete commands used by counterexamples and witnesses -/

/-- `-x` (`--test1`), String, single, optional. -/
def argX : CmdArg := ⟨"-x".toList, "--test1".toList, StringType, false, false, false⟩

/-- `-y` (`--test2`), Boolean, may repeat, optional. -/
def argY : CmdArg := ⟨"-y".toList, "--test2".toList, BoolType, false, true, false⟩

/-- Command with the single flag declaration `argX`. -/
def cmdC1 : Cmd := .mk "root".toList [] [argX] []

/-- Command with declarations `argX, argY`. -/
def cmdC3 : Cmd := .mk "root".toList [] [argX, argY] []

/-- `-a` (`--aaa1`), String, single, optional. -/
def argA : CmdArg := ⟨"-a".toList, "--aaa1".toList, StringType, false, false, false⟩

/-- `-b` (`--bbb1`), String, single, required. -/
def argB : CmdArg := ⟨"-b".toList, "--bbb1".toList, StringType, false, false, true⟩

/-- Command with declarations `argA, argB`. -/
def cmdC5 : Cmd := .mk "root".toList [] [argA, argB] []

/-- Positional `test1`, String, may repeat, required. -/
def posArg1 : CmdArg := ⟨[], "test1".toList, StringType, true, true, true⟩

/-- Positional `test2`, String, single, optional. -/
def posArg2 : CmdArg := ⟨[], "test2".toList, StringType, true, false, false⟩

/-- Command with positional declarations `posArg1, posArg2`. -/
def cmdC2 : Cmd := .mk "root".toList [] [posArg1, posArg2] []

/-- `-x` (`--test1`), String, single, required. -/
def argR : CmdArg := ⟨"-x".toList, "--test1".toList, StringType, false, false, true⟩

/-- Command with the single required flag declaration `argR`. -/
def cmdC6 : Cmd := .mk "root".toList [] [argR] []

/-- Child command `child1` with aliases `a1`, `a2`. -/
def child1 : Cmd := .mk "child1".toList ["a1".toList, "a2".toList] [] []

/-- Child command `child2` with no aliases. -/
def child2 : Cmd := .mk "child2".toList [] [] []

/-- Root command with children `child1`, `child2`. -/
def rootCmd : Cmd := .mk "root".toList [] [] [child1, child2]

/-! ## Claim theorems -/

/-- Claim C1 (code bug): a token of the long-flag shape that equals a
declaration's `longFlag` is nevertheless rejected by `find_arg`.  Because
`is_short_arg` is also true of every long token, the guard
`!(is_long != is_short_arg(arg))` discards every long token, so `find_arg`
returns `-1` on `"--test1"` even though declaration 0 (a valid `NewCmdArg`
product) carries exactly that `longFlag`, and `ParseArgs` then reports the
token as unrecognized — contradicting the claim and the function's own
documentation comment. -/
theorem C1_thm :
    cmdC1.arglist.all validArg = true ∧
    is_long_arg "--test1".toList = true ∧
    (cmdC1.arglist.get? 0).map CmdArg.longFlag = some "--test1".toList ∧
    cmdC1.find_arg "--test1".toList = -1 ∧
    cmdC1.ParseArgs ["--test1".toList, "v".toList] =
      ([], some (.unrecognized "--test1".toList)) := by
  refine ⟨by decide, by decide, by decide, by decide, by decide⟩

/-- Claim C3 (code bug): on declarations `-x` (`--test1`, String) and `-y`
(`--test2`, Boolean, may repeat) — both valid `NewCmdArg` products — the
input `["-x","-y","5"]` makes `ParseArgs` succeed while emitting a Boolean
occurrence of `--test2` whose value is `"5"`: the Boolean flag match
overwrites the staged pending occurrence of `-x`, so the following token is
consumed as the Boolean's value, contradicting the claim that Boolean
occurrences always carry an empty value and never consume a following
token. -/
theorem C3_thm :
    cmdC3.arglist.all validArg = true ∧
    cmdC3.ParseArgs ["-x".toList, "-y".toList, "5".toList] =
      ([⟨1, "--test2".toList, BoolType, []⟩,
        ⟨1, "--test2".toList, BoolType, "5".toList⟩], none) := by
  refine ⟨by decide, by decide⟩

/-- Claim C2, counterexample: with positional declarations `test1` (may
repeat) before `test2` (single) — valid `NewCmdArg` products — and the mask
state `[1, 0]` (reached after one token, as the `ParseArgs` run shows), the
code selects declaration 0 while the claim's rule (first zero slot, else
first multi) selects declaration 1. -/
theorem C2_counterexample :
    cmdC2.arglist.all validArg = true ∧
    cmdC2.find_positional [1, 0] = 0 ∧
    claimed_find_positional cmdC2 [1, 0] = 1 ∧
    cmdC2.ParseArgs ["x".toList, "y".toList] =
      ([⟨0, "test1".toList, StringType, "x".toList⟩,
        ⟨0, "test1".toList, StringType, "y".toList⟩], none) := by
  refine ⟨by decide, by decide, by decide, by decide⟩

/-- Claim C5, counterexample: on declarations `-a` (`--aaa1`, String,
single, optional) before `-b` (`--bbb1`, String, single, required) — valid
`NewCmdArg` products — the input `["-a","1","-a","2"]` completes consumption
without error, the required declaration 1 has zero occurrences, yet
`ParseArgs` returns the duplicate error for `--aaa1` (the first violating
declaration), not `MissingRequiredArgument` as the claim demands. -/
theorem C5_counterexample :
    cmdC5.arglist.all validArg = true ∧
    argB.required = true ∧
    (cmdC5.ParseArgs ["-a".toList, "1".toList, "-a".toList, "2".toList]).1.all
      (fun pa => decide (pa.Index ≠ 1)) = true ∧
    (cmdC5.ParseArgs ["-a".toList, "1".toList, "-a".toList, "2".toList]).2 =
      some (.duplicate "--aaa1".toList) := by
  refine ⟨by decide, by decide, by decide, by decide⟩

/-- Claim C6, counterexample: with the valid declaration `-x` (`--test1`,
String, required) and the input `["-x",""]` (the empty string is a
legitimate token), `ParseArgs` emits a non-Boolean occurrence with an empty
value and the defensive check fires, returning the requires-a-value
error — so the branch is reachable. -/
theorem C6_counterexample :
    cmdC6.arglist.all validArg = true ∧
    cmdC6.ParseArgs ["-x".toList, ([] : GoStr)] =
      ([⟨0, "--test1".toList, StringType, []⟩],
        some (.requiresValue "--test1".toList)) := by
  refine ⟨by decide, by decide⟩

/-- A two-character dash token is not expanded further. -/
theorem expand_token_pair (ch : Char) : expand_token ['-', ch] = [['-', ch]] := by
  simp [expand_token]

/-- Every token produced by `expand_token` is a fixed point of
`expand_token`. -/
theorem expand_token_fix (t u : GoStr) (hu : u ∈ expand_token t) :
    expand_token u = [u] := by
  unfold expand_token at hu
  split at hu
  case isTrue h =>
    rw [List.mem_map] at hu
    obtain ⟨ch, _, rfl⟩ := hu
    exact expand_token_pair ch
  case isFalse h =>
    rw [List.mem_singleton] at hu
    subst hu
    unfold expand_token
    rw [if_neg h]

/-- Flattening with a function that fixes every member is the identity. -/
theorem flatMap_fix (l : List GoStr) (h : ∀ u ∈ l, expand_token u = [u]) :
    l.flatMap expand_token = l := by
  induction l with
  | nil => rfl
  | cons a l ih =>
    rw [List.flatMap_cons, h a (List.mem_cons_self a l),
      ih (fun u hu => h u (List.mem_cons_of_mem a hu))]
    rfl

/-- `initial_pass` is idempotent: a second expansion pass changes nothing. -/
theorem initial_pass_idem (args : List GoStr) :
    initial_pass (initial_pass args) = initial_pass args := by
  unfold initial_pass
  exact flatMap_fix _ (fun u hu => by
    rw [List.mem_flatMap] at hu
    obtain ⟨t, _, hut⟩ := hu
    exact expand_token_fix t u hut)

/-- The spec's cluster rewrite and the code's `initial_pass` agree token for
token. -/
theorem expandClusters_eq (args : List GoStr) :
    expandClusters args = initial_pass args := by
  unfold expandClusters initial_pass
  congr 1
  funext t
  unfold expand_token isCluster is_short_arg is_long_arg
  by_cases h2 : 2 < t.length
  · by_cases h1 : t.take 1 = ['-']
    · by_cases hll : t.take 2 = ['-', '-']
      · simp [h2, h1, hll]
      · have h1' : 1 < t.length := by omega
        simp [h2, h1, hll, h1']
    · simp [h2, h1]
  · simp [h2]

/-- Claim C4: `ParseArgs` returns the same result on the original token
sequence and on the sequence in which every combinable short-flag cluster is
replaced by its single-character flag tokens (the spec's rewrite): the
expansion pass is exactly that rewrite, and it is idempotent. -/
theorem C4_thm (c : Cmd) (args : List GoStr) :
    c.ParseArgs args = c.ParseArgs (expandClusters args) := by
  unfold Cmd.ParseArgs
  rw [expandClusters_eq, initial_pass_idem]

/-- The `find_positional` loop returns exactly the first eligible index, or
`-1` when none exists. -/
theorem fpg_eq_feg (l : List CmdArg) (k : Nat) (mask : List Nat) :
    find_positional_go l k mask =
      (match first_eligible_go l k mask with
       | some i => (i : Int)
       | none => -1) := by
  induction l generalizing k with
  | nil => rfl
  | cons a rest ih =>
    unfold find_positional_go first_eligible_go
    by_cases hp : a.positional = true
    · by_cases hm : mask.getD k 0 = 0
      · rw [if_pos hp, if_pos hm,
          if_pos (show posEligArg a mask k = true by unfold posEligArg; rw [hp, hm]; simp)]
      · by_cases hmul : a.canHaveMultiple = true
        · rw [if_pos hp, if_neg hm, if_pos hmul,
            if_pos (show posEligArg a mask k = true by
              unfold posEligArg; rw [hp, hmul]; simp)]
        · rw [if_pos hp, if_neg hm, if_neg hmul,
            if_neg (show ¬posEligArg a mask k = true by
              unfold posEligArg
              rw [hp, decide_eq_false hm, Bool.eq_false_iff.mpr hmul]
              simp),
            ih]
    · rw [if_neg hp,
        if_neg (show ¬posEligArg a mask k = true by
          unfold posEligArg
          rw [Bool.eq_false_iff.mpr hp]
          simp),
        ih]

/-- Soundness of `first_eligible_go`: the returned index is at or after the
offset, eligible, and minimal among eligible indices. -/
theorem feg_sound (l : List CmdArg) (k i : Nat) (mask : List Nat)
    (h : first_eligible_go l k mask = some i) :
    k ≤ i ∧ (∃ a, l.get? (i - k) = some a ∧ posEligArg a mask i = true) ∧
      ∀ j, k ≤ j → j < i → ∀ b, l.get? (j - k) = some b → posEligArg b mask j = false := by
  induction l generalizing k with
  | nil => simp [first_eligible_go] at h
  | cons a rest ih =>
    unfold first_eligible_go at h
    by_cases he : posEligArg a mask k = true
    · rw [if_pos he] at h
      injection h with h
      subst h
      refine ⟨Nat.le_refl k, ⟨a, by simp, he⟩, ?_⟩
      intro j hkj hjk
      exact absurd hjk (by omega)
    · rw [if_neg he] at h
      obtain ⟨hki, ⟨a2, hget, helig⟩, hfirst⟩ := ih (k + 1) h
      refine ⟨by omega, ⟨a2, ?_, helig⟩, ?_⟩
      · have hik : i - k = (i - (k + 1)) + 1 := by omega
        rw [hik]
        simpa using hget
      · intro j hkj hji b hb
        rcases Nat.eq_or_lt_of_le hkj with heq | hlt
        · subst heq
          have hba : a = b := by simpa [Nat.sub_self] using hb
          subst hba
          exact Bool.eq_false_iff.mpr he
        · have hjk1 : j - k = (j - (k + 1)) + 1 := by omega
          rw [hjk1] at hb
          exact hfirst j hlt hji b (by simpa using hb)

/-- Completeness of `first_eligible_go`: when it returns nothing, no index
is eligible. -/
theorem feg_none (l : List CmdArg) (k : Nat) (mask : List Nat)
    (h : first_eligible_go l k mask = none) :
    ∀ j b, l.get? j = some b → posEligArg b mask (k + j) = false := by
  induction l generalizing k with
  | nil => intro j b hb; simp at hb
  | cons a rest ih =>
    unfold first_eligible_go at h
    by_cases he : posEligArg a mask k = true
    · rw [if_pos he] at h
      exact absurd h (by simp)
    · rw [if_neg he] at h
      intro j b hb
      cases j with
      | zero =>
        simp at hb
        subst hb
        simpa using he
      | succ j2 =>
        have hrec := ih (k + 1) h j2 b (by simpa using hb)
        have heq : k + (j2 + 1) = (k + 1) + j2 := by omega
        rw [heq]
        exact hrec

/-- Claim C2 (amended): when a token is handled as a positional candidate,
`find_positional` selects the first declared positional argument, in
declaration order, whose mask slot is zero OR whose `canHaveMultiple` is
true (not: zero slots first and multi slots only as a fallback); when no
positional declaration qualifies, the scan fails with the unrecognized
argument error. -/
theorem C2_thm (c : Cmd) (mask : List Nat) :
    (c.find_positional mask =
       match first_eligible_go c.arglist 0 mask with
       | some i => (i : Int)
       | none => -1) ∧
    (∀ i : Nat, first_eligible_go c.arglist 0 mask = some i →
       posElig c mask i = true ∧ ∀ j, j < i → posElig c mask j = false) ∧
    (first_eligible_go c.arglist 0 mask = none → ∀ j, posElig c mask j = false) ∧
    (∀ arg rest st, c.find_arg arg = -1 → st.awaiting_value = false →
       c.find_positional st.arg_mask = -1 →
       parse_go c (arg :: rest) st = Sum.inr (st.ret, ParseError.unrecognized arg)) := by
  refine ⟨fpg_eq_feg c.arglist 0 mask, ?_, ?_, ?_⟩
  · intro i h
    obtain ⟨_, ⟨a, hget, helig⟩, hfirst⟩ := feg_sound c.arglist 0 i mask h
    constructor
    · unfold posElig
      rw [show i - 0 = i from rfl] at hget
      rw [hget]
      exact helig
    · intro j hj
      unfold posElig
      cases hg : c.arglist.get? j with
      | none => rfl
      | some b => exact hfirst j (Nat.zero_le j) hj b (by simpa using hg)
  · intro h j
    unfold posElig
    cases hg : c.arglist.get? j with
    | none => rfl
    | some b => simpa using feg_none c.arglist 0 mask h j b hg
  · intro arg rest st hfa hav hfp
    simp [parse_go, hfa, hav, hfp]

/-- Witness for `C2_thm`: declaration 0 of `cmdC2` is eligible at mask
`[1,0]`, and a token that is neither a flag nor assignable to any positional
is rejected as unrecognized. -/
theorem C2_witness :
    posElig cmdC2 [1, 0] 0 = true ∧
    parse_go cmdC5 ["z".toList] ⟨[], [0, 0], default, false⟩ =
      Sum.inr ([], ParseError.unrecognized "z".toList) :=
  ⟨((C2_thm cmdC2 [1, 0]).2.1 0 (by decide)).1,
   (C2_thm cmdC5 [0, 0]).2.2.2 "z".toList [] ⟨[], [0, 0], default, false⟩
     (by decide) rfl (by decide)⟩

/-- The defensive value check passes on a list of good occurrences. -/
theorem check_values_none_of_good (parsed : List ParsedArg)
    (h : ∀ pa ∈ parsed, goodValue pa = true) : check_values parsed = none := by
  induction parsed with
  | nil => rfl
  | cons a rest ih =>
    unfold check_values
    rw [if_neg ?_]
    · exact ih (fun pa hpa => h pa (List.mem_cons_of_mem a hpa))
    · have hg := h a (List.mem_cons_self a rest)
      unfold goodValue at hg
      rw [Bool.or_eq_true, decide_eq_true_iff, decide_eq_true_iff] at hg
      rintro ⟨hty, hval⟩
      rcases hg with h1 | h2
      · exact hty h1
      · exact h2 hval

/-- `violArg` unfolded to its two rule violations. -/
theorem violArg_iff (a : CmdArg) (mask : List Nat) (i : Nat) :
    violArg a mask i = true ↔
      (a.required = true ∧ mask.getD i 0 = 0) ∨
      (a.canHaveMultiple = false ∧ 1 < mask.getD i 0) := by
  unfold violArg
  rw [Bool.or_eq_true, Bool.and_eq_true, Bool.and_eq_true,
    decide_eq_true_iff, decide_eq_true_iff, Bool.not_eq_true']

/-- The declaration loop of `validate_args` succeeds exactly when no
declaration violates a rule. -/
theorem cd_none_iff (l : List CmdArg) (k : Nat) (mask : List Nat) :
    check_decls l k mask = none ↔
      ∀ j b, l.get? j = some b → violArg b mask (k + j) = false := by
  induction l generalizing k with
  | nil => simp [check_decls]
  | cons a rest ih =>
    unfold check_decls
    by_cases hc1 : a.required = true ∧ ¬(0 < mask.getD k 0)
    · rw [if_pos hc1]
      simp only [false_iff, reduceCtorEq]
      intro hall
      have hv := hall 0 a (by simp)
      rw [Nat.add_zero] at hv
      have hv2 : violArg a mask k = true :=
        (violArg_iff a mask k).mpr (Or.inl ⟨hc1.1, by omega⟩)
      rw [hv2] at hv
      exact absurd hv (by simp)
    · rw [if_neg hc1]
      by_cases hc2 : a.canHaveMultiple = false ∧ 1 < mask.getD k 0
      · rw [if_pos hc2]
        simp only [false_iff, reduceCtorEq]
        intro hall
        have hv := hall 0 a (by simp)
        rw [Nat.add_zero] at hv
        have hv2 : violArg a mask k = true :=
          (violArg_iff a mask k).mpr (Or.inr hc2)
        rw [hv2] at hv
        exact absurd hv (by simp)
      · rw [if_neg hc2]
        rw [ih (k + 1)]
        constructor
        · intro hall j b hb
          cases j with
          | zero =>
            have hba : a = b := by simpa using hb
            subst hba
            rw [Nat.add_zero, ← Bool.not_eq_true, violArg_iff]
            rintro (⟨h1, h2⟩ | ⟨h1, h2⟩)
            · exact hc1 ⟨h1, by omega⟩
            · exact hc2 ⟨h1, h2⟩
          | succ j2 =>
            have heq : k + (j2 + 1) = (k + 1) + j2 := by omega
            rw [heq]
            exact hall j2 b (by simpa using hb)
        · intro hall j b hb
          have heq : (k + 1) + j = k + (j + 1) := by omega
          rw [heq]
          exact hall (j + 1) b (by simpa using hb)

/-- The declaration loop of `validate_args` reports the first violating
declaration: the required rule when it applies, otherwise the multiplicity
rule. -/
theorem cd_first (l : List CmdArg) (k : Nat) (mask : List Nat) :
    ∀ j a, l.get? j = some a → violArg a mask (k + j) = true →
      (∀ j2, j2 < j → ∀ b, l.get? j2 = some b → violArg b mask (k + j2) = false) →
      check_decls l k mask =
        some (if a.required = true ∧ mask.getD (k + j) 0 = 0
          then ParseError.missingRequired a.longFlag
          else ParseError.duplicate a.longFlag) := by
  induction l generalizing k with
  | nil => intro j a hget; simp at hget
  | cons hd rest ih =>
    intro j a hget hviol hfirst
    cases j with
    | zero =>
      have hda : hd = a := by simpa using hget
      subst hda
      rw [Nat.add_zero] at hviol ⊢
      unfold check_decls
      by_cases hc1 : hd.required = true ∧ ¬(0 < mask.getD k 0)
      · rw [if_pos hc1, if_pos ⟨hc1.1, by omega⟩]
      · rw [if_neg hc1]
        by_cases hc2 : hd.canHaveMultiple = false ∧ 1 < mask.getD k 0
        · rw [if_pos hc2, if_neg ?_]
          rintro ⟨h1, h2⟩
          exact hc1 ⟨h1, by omega⟩
        · exfalso
          rcases (violArg_iff hd mask k).mp hviol with ⟨h1, h2⟩ | ⟨h1, h2⟩
          · exact hc1 ⟨h1, by omega⟩
          · exact hc2 ⟨h1, h2⟩
    | succ j2 =>
      have hhd : violArg hd mask k = false := by
        have h0 := hfirst 0 (Nat.succ_pos j2) hd (by simp)
        rwa [Nat.add_zero] at h0
      have hc12 : ¬(hd.required = true ∧ mask.getD k 0 = 0) ∧
          ¬(hd.canHaveMultiple = false ∧ 1 < mask.getD k 0) := by
        have hno : ¬((hd.required = true ∧ mask.getD k 0 = 0) ∨
            (hd.canHaveMultiple = false ∧ 1 < mask.getD k 0)) := by
          rw [← violArg_iff hd mask k]
          simp [hhd]
        exact ⟨fun h => hno (Or.inl h), fun h => hno (Or.inr h)⟩
      unfold check_decls
      rw [if_neg (by rintro ⟨h1, h2⟩; exact hc12.1 ⟨h1, by omega⟩), if_neg hc12.2]
      have hviol2 : violArg a mask ((k + 1) + j2) = true := by
        rw [show (k + 1) + j2 = k + (j2 + 1) by omega]
        exact hviol
      have hres := ih (k + 1) j2 a (by simpa using hget) hviol2 (by
        intro j3 hj3 b hb
        rw [show (k + 1) + j3 = k + (j3 + 1) by omega]
        exact hfirst (j3 + 1) (by omega) b (by simpa using hb))
      rw [hres, show (k + 1) + j2 = k + (j2 + 1) by omega]

/-- When the scan completes still not awaiting a value, `ParseArgs` returns
the emitted occurrences together with the outcome of `validate_args`. -/
theorem ParseArgs_after_scan (c : Cmd) (args : List GoStr) (st : ScanSt)
    (hscan : parse_go c (initial_pass args) (initSt c) = Sum.inl st)
    (hav : st.awaiting_value = false) :
    c.ParseArgs args = (st.ret, c.validate_args st.arg_mask st.ret) := by
  unfold Cmd.ParseArgs
  rw [hscan]
  simp [hav]

/-- Claim C5 (amended): after consumption completes without an earlier error
and with every emitted occurrence passing the defensive value check, the
result of `ParseArgs` is determined by the FIRST declaration, in declaration
order, violating a rule: `MissingRequiredArgument` naming it when it is
required with zero occurrences, otherwise `DuplicateArgument` naming it when
it is non-multiple with more than one occurrence; when no declaration
violates either rule, `ParseArgs` returns the emitted occurrences with no
error.  (The claim's unconditional "returns MissingRequiredArgument whenever
some required declaration has zero occurrences" fails when a
duplicate-violating declaration precedes it.) -/
theorem C5_thm (c : Cmd) (args : List GoStr) (st : ScanSt)
    (_hvalid : c.arglist.all validArg = true)
    (hscan : parse_go c (initial_pass args) (initSt c) = Sum.inl st)
    (hav : st.awaiting_value = false)
    (hgood : ∀ pa ∈ st.ret, goodValue pa = true) :
    (c.ParseArgs args = (st.ret, none) ↔ ∀ i, declViol c st.arg_mask i = false) ∧
    (∀ i a, c.arglist.get? i = some a → declViol c st.arg_mask i = true →
      (∀ j, j < i → declViol c st.arg_mask j = false) →
      c.ParseArgs args =
        (st.ret, some (if a.required = true ∧ st.arg_mask.getD i 0 = 0
          then ParseError.missingRequired a.longFlag
          else ParseError.duplicate a.longFlag))) := by
  have hpa := ParseArgs_after_scan c args st hscan hav
  have hcv := check_values_none_of_good st.ret hgood
  have hval : c.validate_args st.arg_mask st.ret = check_decls c.arglist 0 st.arg_mask := by
    unfold Cmd.validate_args
    rw [hcv]
  rw [hpa, hval]
  constructor
  · constructor
    · intro h i
      have h2 : check_decls c.arglist 0 st.arg_mask = none := by
        have := congrArg Prod.snd h
        simpa using this
      unfold declViol
      cases hg : c.arglist.get? i with
      | none => rfl
      | some b =>
        have := (cd_none_iff c.arglist 0 st.arg_mask).mp h2 i b hg
        rwa [Nat.zero_add] at this
    · intro h
      have h2 : check_decls c.arglist 0 st.arg_mask = none := by
        rw [cd_none_iff]
        intro j b hb
        have := h j
        unfold declViol at this
        rw [hb] at this
        rwa [Nat.zero_add]
      rw [h2]
  · intro i a hget hviol hfirst
    have hva : violArg a st.arg_mask (0 + i) = true := by
      unfold declViol at hviol
      rw [hget] at hviol
      rwa [Nat.zero_add]
    have hres := cd_first c.arglist 0 st.arg_mask i a hget hva ?_
    · rw [hres, Nat.zero_add]
    · intro j2 hj2 b hb
      have := hfirst j2 hj2
      unfold declViol at this
      rw [hb] at this
      rwa [Nat.zero_add]

/-- Witness for `C5_thm`: on `cmdC5` with input `["-a","1"]`, the scan
completes cleanly, declaration 1 (`--bbb1`, required) is the first violating
declaration, and `ParseArgs` reports it missing. -/
theorem C5_witness :
    cmdC5.ParseArgs ["-a".toList, "1".toList] =
      ([⟨0, "--aaa1".toList, StringType, "1".toList⟩],
        some (ParseError.missingRequired "--bbb1".toList)) := by
  have h := (C5_thm cmdC5 ["-a".toList, "1".toList]
      ⟨[⟨0, "--aaa1".toList, StringType, "1".toList⟩], [1, 0],
        ⟨0, "--aaa1".toList, StringType, "1".toList⟩, false⟩
      (by decide) (by decide) rfl
      (by intro pa hpa; simp at hpa; subst hpa; decide)).2 1 argB
      (by decide) (by decide)
      (by intro j hj; rcases Nat.lt_one_iff.mp hj with rfl; decide)
  rw [h]
  rfl

/-- Witness for `C4_thm`: the cluster token `-xy` parses the same before and
after the spec's rewrite on the concrete command `cmdC3`. -/
theorem C4_witness :
    cmdC3.ParseArgs ["-xy".toList] = cmdC3.ParseArgs (expandClusters ["-xy".toList]) :=
  C4_thm cmdC3 ["-xy".toList]

/-- The invariant carried through the scan: all emitted occurrences are
good, and a scan-stage error is never the defensive-check error. -/
def scanGood : ScanSt ⊕ (List ParsedArg × ParseError) → Prop
  | .inl st2 => ∀ pa ∈ st2.ret, goodValue pa = true
  | .inr p => (∀ pa ∈ p.1, goodValue pa = true) ∧ p.2.isRequiresValue = false

/-- Scanning non-empty tokens preserves goodness of the emitted
occurrences: a Boolean occurrence is emitted with `BoolType`, every other
emission copies a non-empty token into the value. -/
theorem parse_go_good (c : Cmd) (toks : List GoStr) :
    ∀ st : ScanSt, (∀ t ∈ toks, t ≠ ([] : GoStr)) →
      (∀ pa ∈ st.ret, goodValue pa = true) →
      scanGood (parse_go c toks st) := by
  induction toks with
  | nil =>
    intro st _ hret
    exact hret
  | cons arg rest ih =>
    intro st hne hret
    have harg : arg ≠ ([] : GoStr) := hne arg (List.mem_cons_self arg rest)
    have hrest : ∀ t ∈ rest, t ≠ ([] : GoStr) :=
      fun t ht => hne t (List.mem_cons_of_mem arg ht)
    unfold parse_go
    dsimp only
    split
    · split
      · exact ih _ hrest hret
      · next hb =>
        apply ih _ hrest
        intro pa hpa
        rcases List.mem_append.mp hpa with hold | hnew
        · exact hret pa hold
        · rw [List.mem_singleton] at hnew
          subst hnew
          rw [not_not] at hb
          unfold goodValue
          rw [decide_eq_true hb]
          rfl
    · split
      · split
        · exact ⟨hret, rfl⟩
        · apply ih _ hrest
          intro pa hpa
          rcases List.mem_append.mp hpa with hold | hnew
          · exact hret pa hold
          · rw [List.mem_singleton] at hnew
            subst hnew
            unfold goodValue
            rw [Bool.or_eq_true]
            exact Or.inr (decide_eq_true harg)
      · split
        · split
          · exact ⟨hret, rfl⟩
          · apply ih _ hrest
            intro pa hpa
            rcases List.mem_append.mp hpa with hold | hnew
            · exact hret pa hold
            · rw [List.mem_singleton] at hnew
              subst hnew
              unfold goodValue
              rw [Bool.or_eq_true]
              exact Or.inr (decide_eq_true harg)
        · exact ⟨hret, rfl⟩

/-- The declaration loop of `validate_args` never produces the
defensive-check error. -/
theorem cd_no_rv (l : List CmdArg) (k : Nat) (mask : List Nat) :
    noRequiresValue (check_decls l k mask) = true := by
  induction l generalizing k with
  | nil => rfl
  | cons a rest ih =>
    unfold check_decls
    split
    · rfl
    · split
      · rfl
      · exact ih (k + 1)

/-- Claim C6 (amended): provided every input token is non-empty, `ParseArgs`
never emits a non-Boolean occurrence with an empty value, so the defensive
"requires a value" branch of `validate_args` is unreachable.  (The claim as
stated fails when the caller passes the empty string as a token; the
declaration-validity hypothesis of the claim is kept although the property
does not need it.) -/
theorem C6_thm (c : Cmd) (args : List GoStr)
    (_hvalid : c.arglist.all validArg = true)
    (hne : args.all (fun t => !t.isEmpty) = true) :
    (c.ParseArgs args).1.all goodValue = true ∧
    noRequiresValue (c.ParseArgs args).2 = true := by
  have hne2 : ∀ t ∈ args, t ≠ ([] : GoStr) := by
    intro t ht
    have := (List.all_eq_true.mp hne) t ht
    simpa using this
  have hne3 : ∀ t ∈ initial_pass args, t ≠ ([] : GoStr) := by
    intro t ht
    rw [initial_pass, List.mem_flatMap] at ht
    obtain ⟨u, hu, htu⟩ := ht
    unfold expand_token at htu
    split at htu
    · rw [List.mem_map] at htu
      obtain ⟨ch, _, rfl⟩ := htu
      simp
    · rw [List.mem_singleton] at htu
      subst htu
      exact hne2 _ hu
  have hg := parse_go_good c (initial_pass args) (initSt c) hne3
    (by intro pa hpa; simp [initSt] at hpa)
  unfold Cmd.ParseArgs
  cases hres : parse_go c (initial_pass args) (initSt c) with
  | inr p =>
    rw [hres] at hg
    obtain ⟨h1, h2⟩ := hg
    obtain ⟨ret, e⟩ := p
    exact ⟨List.all_eq_true.mpr h1, by simpa [noRequiresValue] using h2⟩
  | inl st =>
    rw [hres] at hg
    have hg2 : ∀ pa ∈ st.ret, goodValue pa = true := hg
    dsimp only
    by_cases hav : st.awaiting_value = true
    · rw [if_pos hav]
      exact ⟨List.all_eq_true.mpr hg2, rfl⟩
    · rw [if_neg hav]
      refine ⟨List.all_eq_true.mpr hg2, ?_⟩
      unfold Cmd.validate_args
      rw [check_values_none_of_good st.ret hg2]
      exact cd_no_rv c.arglist 0 st.arg_mask

/-- Witness for `C6_thm`: a run of `cmdC6` on non-empty tokens keeps every
emitted value non-empty and avoids the defensive-check error. -/
theorem C6_witness :
    (cmdC6.ParseArgs ["-x".toList, "ok".toList]).1.all goodValue = true ∧
    noRequiresValue (cmdC6.ParseArgs ["-x".toList, "ok".toList]).2 = true :=
  C6_thm cmdC6 ["-x".toList, "ok".toList] (by decide) (by decide)

/-- Claim C7: `NewCmdArg` fails exactly when one of the declaration rules is
violated — bad short-flag shape, empty `longFlag`, a positional key not
matching the positional regex, a Boolean positional, a non-positional key
not matching the long-flag regex (with length above 3), or a kind outside
the three defined values — and on every other input returns the argument
with the derived positional classification. -/
theorem C7_thm (flag longFlag : GoStr) (typ : ArgType) (m r : Bool) :
    ((NewCmdArg flag longFlag typ m r).toOption.isSome = true ↔
      ¬declViolated flag longFlag typ) ∧
    (¬declViolated flag longFlag typ →
      NewCmdArg flag longFlag typ m r =
        .ok ⟨flag, longFlag, typ, derivedPositional flag longFlag, m, r⟩) := by
  unfold NewCmdArg declViolated
  dsimp only
  rw [show (!is_long_arg longFlag && decide (flag = [])) = derivedPositional flag longFlag
    from rfl]
  by_cases h1 : flag ≠ [] ∧ ¬(flag.length = 2 ∧ matchShortFlag flag = true)
  · rw [if_pos h1]
    exact ⟨⟨fun hfalse => absurd hfalse (by simp [Except.toOption]),
      fun hnot => absurd (Or.inl h1) hnot⟩, fun hnot => absurd (Or.inl h1) hnot⟩
  · rw [if_neg h1]
    by_cases h2 : longFlag = []
    · rw [if_pos h2]
      exact ⟨⟨fun hfalse => absurd hfalse (by simp [Except.toOption]),
        fun hnot => absurd (Or.inr (Or.inl h2)) hnot⟩,
        fun hnot => absurd (Or.inr (Or.inl h2)) hnot⟩
    · rw [if_neg h2]
      by_cases h3 : derivedPositional flag longFlag = true ∧ matchPosKey longFlag = false
      · rw [if_pos h3]
        exact ⟨⟨fun hfalse => absurd hfalse (by simp [Except.toOption]),
          fun hnot => absurd (Or.inr (Or.inr (Or.inl h3))) hnot⟩,
          fun hnot => absurd (Or.inr (Or.inr (Or.inl h3))) hnot⟩
      · rw [if_neg h3]
        by_cases h4 : derivedPositional flag longFlag = true ∧ typ = BoolType
        · rw [if_pos h4]
          exact ⟨⟨fun hfalse => absurd hfalse (by simp [Except.toOption]),
            fun hnot => absurd (Or.inr (Or.inr (Or.inr (Or.inl h4)))) hnot⟩,
            fun hnot => absurd (Or.inr (Or.inr (Or.inr (Or.inl h4)))) hnot⟩
        · rw [if_neg h4]
          by_cases h5 : derivedPositional flag longFlag = false ∧
              ¬(3 < longFlag.length ∧ matchLongKey longFlag = true)
          · rw [if_pos h5]
            exact ⟨⟨fun hfalse => absurd hfalse (by simp [Except.toOption]),
              fun hnot => absurd (Or.inr (Or.inr (Or.inr (Or.inr (Or.inl h5))))) hnot⟩,
              fun hnot => absurd (Or.inr (Or.inr (Or.inr (Or.inr (Or.inl h5))))) hnot⟩
          · rw [if_neg h5]
            by_cases h6 : typ < 0 ∨ 2 < typ
            · rw [if_pos h6]
              exact ⟨⟨fun hfalse => absurd hfalse (by simp [Except.toOption]),
                fun hnot => absurd (Or.inr (Or.inr (Or.inr (Or.inr (Or.inr h6))))) hnot⟩,
                fun hnot => absurd (Or.inr (Or.inr (Or.inr (Or.inr (Or.inr h6))))) hnot⟩
            · rw [if_neg h6]
              have hnd : ¬((flag ≠ [] ∧ ¬(flag.length = 2 ∧ matchShortFlag flag = true)) ∨
                  longFlag = [] ∨
                  (derivedPositional flag longFlag = true ∧ matchPosKey longFlag = false) ∨
                  (derivedPositional flag longFlag = true ∧ typ = BoolType) ∨
                  (derivedPositional flag longFlag = false ∧
                    ¬(3 < longFlag.length ∧ matchLongKey longFlag = true)) ∨
                  (typ < 0 ∨ 2 < typ)) := by
                rintro (h | h | h | h | h | h)
                · exact h1 h
                · exact h2 h
                · exact h3 h
                · exact h4 h
                · exact h5 h
                · exact h6 h
              exact ⟨⟨fun _ => hnd, fun _ => by simp [Except.toOption]⟩, fun _ => rfl⟩

/-- Witness for `C7_thm`: the concrete declaration `-x` with key `--test1`
violates no rule and is constructed with the derived (non-positional)
classification. -/
theorem C7_witness :
    NewCmdArg "-x".toList "--test1".toList StringType false false =
      .ok ⟨"-x".toList, "--test1".toList, StringType, false, false, false⟩ := by
  have h := (C7_thm "-x".toList "--test1".toList StringType false false).2 (by decide)
  rw [h]
  rfl

/-- First-match name lookup finds the unique child with the given name. -/
theorem find?_name_some (children : List Cmd) (child : Cmd)
    (hmem : child ∈ children)
    (huniq : ∀ d ∈ children, d.name = child.name → d = child) :
    children.find? (fun ch => decide (ch.name = child.name)) = some child := by
  induction children with
  | nil => exact absurd hmem (by simp)
  | cons d rest ih =>
    by_cases hd : d.name = child.name
    · have hdc : d = child := huniq d (List.mem_cons_self d rest) hd
      subst hdc
      rw [List.find?_cons_of_pos _ (by simp)]
    · rw [List.find?_cons_of_neg _ (by simp [hd])]
      apply ih
      · rcases List.mem_cons.mp hmem with rfl | hm
        · exact absurd rfl hd
        · exact hm
      · intro e he hne
        exact huniq e (List.mem_cons_of_mem d he) hne

/-- Name lookup fails when no child carries the name. -/
theorem find?_name_none (children : List Cmd) (x : GoStr)
    (h : ∀ d ∈ children, d.name ≠ x) :
    children.find? (fun ch => decide (ch.name = x)) = none := by
  rw [List.find?_eq_none]
  intro d hd
  simp [h d hd]

/-- First-match alias lookup finds the unique child carrying the alias. -/
theorem find?_alias_some (children : List Cmd) (child : Cmd) (al : GoStr)
    (hmem : child ∈ children) (hal : al ∈ child.aliases)
    (huniq : ∀ d ∈ children, al ∈ d.aliases → d = child) :
    children.find? (fun ch => decide (al ∈ ch.aliases)) = some child := by
  induction children with
  | nil => exact absurd hmem (by simp)
  | cons d rest ih =>
    by_cases hd : al ∈ d.aliases
    · have hdc : d = child := huniq d (List.mem_cons_self d rest) hd
      subst hdc
      rw [List.find?_cons_of_pos _ (by simp [hd])]
    · rw [List.find?_cons_of_neg _ (by simp [hd])]
      apply ih
      · rcases List.mem_cons.mp hmem with rfl | hm
        · exact absurd hal hd
        · exact hm
      · intro e he hne
        exact huniq e (List.mem_cons_of_mem d he) hne

/-- `findChildCmd` resolves a name that no child's name shadows. -/
theorem findChildCmd_name (c : Cmd) (child : Cmd)
    (hmem : child ∈ c.children)
    (huniq : ∀ d ∈ c.children, d.name = child.name → d = child) :
    c.findChildCmd child.name = some child := by
  unfold Cmd.findChildCmd
  rw [find?_name_some c.children child hmem huniq]

/-- `findChildCmd` resolves an alias that no child's name shadows and that
no other child carries. -/
theorem findChildCmd_alias (c : Cmd) (child : Cmd) (al : GoStr)
    (hmem : child ∈ c.children) (hal : al ∈ child.aliases)
    (hnotname : ∀ d ∈ c.children, d.name ≠ al)
    (haluniq : ∀ d ∈ c.children, al ∈ d.aliases → d = child) :
    c.findChildCmd al = some child := by
  unfold Cmd.findChildCmd
  rw [find?_name_none c.children al hnotname]
  exact find?_alias_some c.children child al hmem hal haluniq

/-- `findChildCmd` fails on a token matching no name and no alias. -/
theorem findChildCmd_none (c : Cmd) (t : GoStr)
    (h : ∀ d ∈ c.children, d.name ≠ t ∧ t ∉ d.aliases) :
    c.findChildCmd t = none := by
  unfold Cmd.findChildCmd
  rw [find?_name_none c.children t (fun d hd => (h d hd).1)]
  rw [List.find?_eq_none]
  intro d hd
  simp [(h d hd).2]

/-- A one-token resolution through a successful child lookup. -/
theorem FindCmd_single (c d : Cmd) (x : GoStr) (h : c.findChildCmd x = some d) :
    c.FindCmd [x] = (some d, []) := by
  unfold Cmd.FindCmd FindCmd_go
  rw [h]
  rfl

/-- A failed child lookup terminates the walk with everything unconsumed. -/
theorem FindCmd_stuck (c : Cmd) (t : GoStr) (rest : List GoStr)
    (h : c.findChildCmd t = none) :
    c.FindCmd (t :: rest) = (none, t :: rest) := by
  unfold Cmd.FindCmd FindCmd_go
  rw [h]

/-- Claim C8: resolving a one-token sequence holding an alias of a
registered child yields the same command as resolving the child's canonical
name (under the spec's sibling-uniqueness invariants: sibling names are
unique, the alias equals no sibling name, and no other sibling carries it);
and a first token matching no child's name or alias yields `none` with the
full token sequence unconsumed. -/
theorem C8_thm (c child : Cmd) (al t : GoStr) (rest : List GoStr) :
    (child ∈ c.children →
      (∀ d ∈ c.children, d.name = child.name → d = child) →
      al ∈ child.aliases →
      (∀ d ∈ c.children, d.name ≠ al) →
      (∀ d ∈ c.children, al ∈ d.aliases → d = child) →
      c.FindCmd [al] = (some child, []) ∧ c.FindCmd [child.name] = (some child, [])) ∧
    ((∀ d ∈ c.children, d.name ≠ t ∧ t ∉ d.aliases) →
      c.FindCmd (t :: rest) = (none, t :: rest)) := by
  constructor
  · intro hmem hname hal hnotname haluniq
    exact ⟨FindCmd_single c child al
        (findChildCmd_alias c child al hmem hal hnotname haluniq),
      FindCmd_single c child child.name (findChildCmd_name c child hmem hname)⟩
  · intro h
    exact FindCmd_stuck c t rest (findChildCmd_none c t h)

/-- Witness for `C8_thm`: in the concrete tree `rootCmd`, the alias `a1`
resolves to the same command as the canonical name `child1`, and an unknown
token leaves everything unconsumed. -/
theorem C8_witness :
    rootCmd.FindCmd ["a1".toList] = (some child1, []) ∧
    rootCmd.FindCmd ["child1".toList] = (some child1, []) ∧
    rootCmd.FindCmd ["nope".toList] = (none, ["nope".toList]) := by
  have h1 := (C8_thm rootCmd child1 "a1".toList "nope".toList []).1
    (by unfold rootCmd Cmd.children; exact List.mem_cons_self child1 [child2])
    (by intro d hd
        rcases List.mem_cons.mp hd with rfl | hd2
        · intro _; rfl
        · rcases List.mem_cons.mp hd2 with rfl | hd3
          · intro hcon; exact absurd hcon (by decide)
          · exact absurd hd3 (by simp))
    (by decide)
    (by intro d hd
        rcases List.mem_cons.mp hd with rfl | hd2
        · decide
        · rcases List.mem_cons.mp hd2 with rfl | hd3
          · decide
          · exact absurd hd3 (by simp))
    (by intro d hd
        rcases List.mem_cons.mp hd with rfl | hd2
        · intro _; rfl
        · rcases List.mem_cons.mp hd2 with rfl | hd3
          · intro hcon; exact absurd hcon (by decide)
          · exact absurd hd3 (by simp))
  have h2 := (C8_thm rootCmd child1 "a1".toList "nope".toList []).2
    (by intro d hd
        rcases List.mem_cons.mp hd with rfl | hd2
        · exact ⟨by decide, by decide⟩
        · rcases List.mem_cons.mp hd2 with rfl | hd3
          · exact ⟨by decide, by decide⟩
          · exact absurd hd3 (by simp))
  have hname : child1.name = "child1".toList := rfl
  exact ⟨h1.1, by rw [← hname]; exact h1.2, h2⟩

/-- Claim C9: `hasSubcommand` is true exactly when the node has more than
one child, or exactly one child whose name is not the literal `"help"`. -/
theorem C9_thm (c : Cmd) :
    c.hasSubcommand = true ↔
      1 < c.children.length ∨ ∃ d, c.children = [d] ∧ d.name ≠ "help".toList := by
  rcases c with ⟨n, als, ags, ch⟩
  rcases ch with _ | ⟨d, _ | ⟨d2, t⟩⟩
  · simp [Cmd.hasSubcommand, Cmd.children]
  · by_cases hd : d.name = "help".toList
    · simp [Cmd.hasSubcommand, Cmd.children, hd]
    · simp [Cmd.hasSubcommand, Cmd.children, hd]
  · simp [Cmd.hasSubcommand, Cmd.children]

/-- Witness for `C9_thm` at the concrete node `rootCmd`. -/
theorem C9_witness :
    rootCmd.hasSubcommand = true ↔
      1 < rootCmd.children.length ∨
      ∃ d, rootCmd.children = [d] ∧ d.name ≠ "help".toList :=
  C9_thm rootCmd

/-- Claim C10: `FindCmd` on an empty token sequence returns no command (the
Go nil pointer, `none`) and an empty remainder, never the receiver. -/
theorem C10_thm (c : Cmd) : c.FindCmd [] = (none, []) := rfl

/-- Witness for `C10_thm` at the concrete node `rootCmd`. -/
theorem C10_witness : rootCmd.FindCmd [] = (none, []) :=
  C10_thm rootCmd

end Ishell
